import Mathlib

/-!
Verification of the orchestration core of `setup_macos_dev.py`.

The Python program is shallowly embedded: Python strings become `List Char`,
fallible parsing becomes `Option`, the mutable `success_items` / `failed_items`
lists become an explicit `RunState`, and each relevant function of the source
is translated into an executable Lean definition carrying the source's name
where possible.
-/

namespace SetupMacosDev

/-! ## Python string primitives

`pyWs` is the ASCII whitespace set stripped by Python's `str.strip()`.
Unicode whitespace and the underscore digit-grouping accepted by Python's
`int()` are outside the model; every concrete string considered below is
plain ASCII.
-/

/-- Whether `c` is whitespace for Python `str.strip()` (the ASCII set:
space, tab, newline, carriage return, vertical tab, form feed). -/
def isWsChar (c : Char) : Bool :=
  c = ' ' || c = '\t' || c = '\n' || c = '\r' || c = '\x0b' || c = '\x0c'

/-- ASCII decimal digit test, mirroring the characters `int()` accepts. -/
def isDigitChar (c : Char) : Bool := decide (48 ≤ c.toNat ∧ c.toNat ≤ 57)

/-- Sign characters accepted by Python `int()`. -/
def isSignChar (c : Char) : Bool := c = '+' || c = '-'

/-- ASCII lowering of one character, mirroring `str.lower()` on ASCII input. -/
def lowerChar (c : Char) : Char :=
  if 65 ≤ c.toNat ∧ c.toNat ≤ 90 then Char.ofNat (c.toNat + 32) else c

/-- `str.lower()` (ASCII fragment): character-wise lowering. -/
def pyLower (s : List Char) : List Char := s.map lowerChar

/-- Drop leading whitespace, the first half of `str.strip()`. -/
def pyStripLeft (s : List Char) : List Char := s.dropWhile isWsChar

/-- Drop trailing whitespace, the second half of `str.strip()`. -/
def pyStripRight (s : List Char) : List Char := (s.reverse.dropWhile isWsChar).reverse

/-- Python `str.strip()`: remove leading and trailing whitespace. -/
def pyStrip (s : List Char) : List Char := pyStripRight (pyStripLeft s)

/-- Python `str.split(sep)` for a one-character separator: splits on every
occurrence, keeping empty pieces, and yields `[[]]` on the empty string. -/
def splitOnChar (sep : Char) : List Char → List (List Char)
  | [] => [[]]
  | c :: rest =>
    let ps := splitOnChar sep rest
    if c = sep then [] :: ps
    else
      match ps with
      | p :: ps' => (c :: p) :: ps'
      | [] => [[c]]

/-- Value of a nonempty all-digit string. -/
def digitsVal (s : List Char) : Int :=
  s.foldl (fun acc c => 10 * acc + (Int.ofNat c.toNat - 48)) 0

/-- Parse a nonempty run of ASCII digits, else `none`. -/
def parseDigits (s : List Char) : Option Int :=
  if s ≠ [] ∧ s.all isDigitChar then some (digitsVal s) else none

/-- Python `int()` applied to an already-stripped string: optional sign then
a nonempty digit run; anything else raises `ValueError`, modelled as `none`. -/
def parsePyInt (s : List Char) : Option Int :=
  match s with
  | [] => none
  | c :: rest =>
    if c = '+' then parseDigits rest
    else if c = '-' then (parseDigits rest).map Int.neg
    else parseDigits (c :: rest)

/-- Apply `f` to the last element of a list (identity on `[]`). -/
def modLast (f : List Char → List Char) : List (List Char) → List (List Char)
  | [] => []
  | p :: ps =>
    match ps with
    | [] => [f p]
    | q :: qs => p :: modLast f (q :: qs)

/-! ## Step Registry

`get_installation_steps` (src/setup_macos_dev.py:896-914): the fixed ordered
catalog.  Actions are Python closures; for selection purposes only the
`(name, description)` pairs and positions matter, so the catalog is embedded
as that list and an executed step's action is supplied by the environment.
-/

/-- The ordered catalog registered by `get_installation_steps`. -/
def installationSteps : List (String × String) :=
  [ ("Homebrew", "Package manager for macOS"),
    ("Python via Homebrew", "Python development environment"),
    ("ZSH Shell", "Z Shell (should already be default)"),
    ("Oh My Zsh", "ZSH framework for terminal customization"),
    ("Copy .zshrc config", "Custom ZSH configuration file"),
    ("NVM & Node.js LTS", "Node Version Manager and Node.js"),
    ("iTerm2", "Enhanced terminal emulator"),
    ("Claude Code", "Claude AI coding assistant"),
    ("VS Code", "Visual Studio Code editor"),
    ("VS Code Extensions", "Claude Code and Python extensions"),
    ("GitHub CLI", "GitHub command line tool"),
    ("GitHub Authentication", "Sign in to GitHub CLI"),
    ("Dark Mode Toggle", "NightOwl menu bar app for dark/light mode switching"),
    ("Apple Media Tracking Killer", "Background process to disable media tracking"),
    ("Download Recycler", "Auto-clean old files from Downloads folder") ]

/-- Number of registered steps (`len(steps)`). -/
def numSteps : Nat := installationSteps.length

/-- Name of the step at 0-based index `i`. -/
def stepName (i : Nat) : String := (installationSteps.getD i ("", "")).1

/-! ## Flag-driven selection (`main`, src/setup_macos_dev.py:1150-1164)

`indices = [int(x.strip()) - 1 for x in args.select.split(',')]` followed by a
loop that appends `steps[idx]` for in-range `idx` and calls `sys.exit(1)` at
the first out-of-range one.  A `ValueError` anywhere in the comprehension also
reaches `sys.exit(1)`.
-/

/-- The comprehension `[int(x.strip()) - 1 for x in parts]`; `none` models the
`ValueError` raised by `int` on a malformed part. -/
def parseParts : List (List Char) → Option (List Int)
  | [] => some []
  | p :: ps =>
    match parsePyInt (pyStrip p), parseParts ps with
    | some k, some rest => some ((k - 1) :: rest)
    | _, _ => none

/-- `[int(x.strip()) - 1 for x in s.split(',')]` as one function. -/
def parseSelect (s : List Char) : Option (List Int) :=
  parseParts (splitOnChar ',' s)

/-- The bounds-checking loop of the `--select` branch: appends each in-range
index in written order and exits (`none`) at the first out-of-range one. -/
def selectLoop (n : Nat) : List Int → Option (List Nat)
  | [] => some []
  | i :: rest =>
    if 0 ≤ i ∧ i < (n : Int) then (selectLoop n rest).map (i.toNat :: ·)
    else none

/-- The full `--select` resolution: parse, then bounds-check.  `none` models
`sys.exit(1)`; `some sel` is the resolved Selection as 0-based indices. -/
def resolveSelect (s : List Char) (n : Nat) : Option (List Nat) :=
  (parseSelect s).bind (selectLoop n)

/-- Modelled from the spec: "the catalog-order-preserving deduplication of the
parsed indices" — the Selection the spec asserts the flag-driven surface
produces, written from the spec's words for comparison with `resolveSelect`. -/
def selectionSpecCatalogDedup (idxs : List Int) (n : Nat) : List Nat :=
  (List.range n).filter (fun j => decide ((j : Int) ∈ idxs))

/-! ## Line-based selection surface
(`display_simple_menu`, src/setup_macos_dev.py:1006-1061)

The prompt loop reads one line per iteration.  The stdin stream is embedded as
a list of lines; an exhausted list is `EOFError`, whose handler returns the
full catalog.  The result is either a cancellation (`q`) or a list of 0-based
step indices.
-/

/-- Result of a selection surface: `cancelled` models returning `None`. -/
inductive MenuResult where
  | cancelled
  | selected (idxs : List Nat)
deriving DecidableEq

/-- The menu's bounds loop: in-range indices are collected in written order,
out-of-range ones are reported 1-based in `invalid_indices`. -/
def menuBoundsLoop (n : Nat) : List Int → List Nat × List Int
  | [] => ([], [])
  | i :: rest =>
    let (sel, inv) := menuBoundsLoop n rest
    if 0 ≤ i ∧ i < (n : Int) then (i.toNat :: sel, inv) else (sel, (i + 1) :: inv)

/-- `display_simple_menu`, driven by the remaining stdin lines.  Each
iteration lowercases and strips the line, handles the literals
`q` / `all` / empty / `none`, otherwise parses
`[int(x.strip()) - 1 for x in selection.split(',') if x.strip()]`;
a `ValueError`, an invalid index, or an empty result re-prompts, and
`EOFError` (exhausted input) returns every step. -/
def display_simple_menu : List (List Char) → MenuResult
  | [] => .selected (List.range numSteps)
  | line :: rest =>
    let selection := pyLower (pyStrip line)
    if selection = ['q'] then .cancelled
    else if selection = ['a', 'l', 'l'] ∨ selection = [] then
      .selected (List.range numSteps)
    else if selection = ['n', 'o', 'n', 'e'] then .selected []
    else
      match parseParts ((splitOnChar ',' selection).filter (fun x => pyStrip x ≠ [])) with
      | none => display_simple_menu rest
      | some idxs =>
        let (sel, inv) := menuBoundsLoop numSteps idxs
        if inv ≠ [] then display_simple_menu rest
        else if sel ≠ [] then .selected sel
        else display_simple_menu rest

/-! ## Idempotent text-block mutator
(`add_to_shell_profile`, src/setup_macos_dev.py:420-434)

The shell profile is `none` when the file does not exist.  The membership test
is Python's substring operator `line in existing_content`; on absence the code
appends `f'\n{line}\n'` in append mode (creating the file if missing) and
returns `True`, otherwise it leaves the file alone and returns `False`.
-/

/-- Python's substring operator `pat in s`. -/
def pyInStr (pat s : List Char) : Bool := decide (pat <:+: s)

/-- `add_to_shell_profile(line)`: returns the updated file and the boolean
result (`true` = inserted). -/
def add_to_shell_profile (file : Option (List Char)) (line : List Char) :
    Option (List Char) × Bool :=
  let existing := file.getD []
  if pyInStr line existing then (file, false)
  else (some (existing ++ '\n' :: (line ++ ['\n'])), true)

/-- The file's lines, for stating the spec's "membership among existing
lines". -/
def linesOf (s : List Char) : List (List Char) := splitOnChar '\n' s

/-- Number of occurrences of `pat` as a contiguous substring (count of start
positions). -/
def countOccur (pat : List Char) : List Char → Nat
  | [] => 0
  | c :: rest => (if pat <+: (c :: rest) then 1 else 0) + countOccur pat rest

/-! ## Run executor (`main`, src/setup_macos_dev.py:1197-1203)

The mutable `success_items` / `failed_items` of `MacOSDevSetup` become an
explicit `RunState`.  An action is a function that may mutate the state and
may let an exception escape (`some msg`); the executor's `try/except Exception`
converts an escaped exception into `add_failure(f"{step_name} (error: {e})")`
and continues.  The executor also returns the ghost trace of invoked step
names, one entry per `step_func()` call.
-/

/-- The result ledger: `success_items` and `failed_items`. -/
structure RunState where
  successes : List String
  failures : List String
deriving DecidableEq

/-- `add_success`. -/
def addSuccess (st : RunState) (item : String) : RunState :=
  { st with successes := st.successes ++ [item] }

/-- `add_failure`. -/
def addFailure (st : RunState) (item : String) : RunState :=
  { st with failures := st.failures ++ [item] }

/-- A selected step: its registered name and its action.  The action returns
the mutated state and, when an exception escapes it, the exception's
description. -/
structure Step where
  name : String
  action : RunState → RunState × Option String

/-- The execution loop of `main`: invoke each action once, in order, convert
an escaped exception into a tagged failure entry, and continue.  The second
component is the trace of invoked step names. -/
def executeSteps : List Step → RunState → RunState × List String
  | [], st => (st, [])
  | s :: rest, st =>
    let (st1, exc) := s.action st
    let st2 :=
      match exc with
      | none => st1
      | some msg => addFailure st1 (s.name ++ " (error: " ++ msg ++ ")")
    let (fin, tr) := executeSteps rest st2
    (fin, s.name :: tr)

/-- A step whose action records one success and returns normally. -/
def okStep (n msg : String) : Step :=
  ⟨n, fun st => (addSuccess st msg, none)⟩

/-- A step whose action raises an exception described by `msg`. -/
def throwStep (n msg : String) : Step :=
  ⟨n, fun st => (st, some msg)⟩

/-! ## Background job installer
(`setup_kill_apple_media_tracking`, src/setup_macos_dev.py:493-509, and
`setup_download_recycler`, src/setup_macos_dev.py:618-637)

Both steps share the same load phase once the plist has been written:
`launchctl load <plist>` with `check=False`; if that returned `None`
(command not runnable) or its stderr mentions `already loaded`, then
`launchctl unload <plist>` followed by a second `launchctl load <plist>`;
finally `add_success` of either the "installed and started" or the
"installed (will start on next login)" message — never `add_failure`.

`run_command` returns `None` when the executable is missing (and, for the
`check=True` retry, when the command exits non-zero); otherwise it returns a
result object, embedded here as the command's stderr text.  The environment
supplies those results; the returned trace lists the `launchctl` command
lines issued, in order.
-/

/-- Supervisor responses for one installer run: the first load's
`run_command` result (`none` = no result object) and whether the retry load
returns a result. -/
structure LaunchctlEnv where
  firstLoad : Option (List Char)
  secondLoadOk : Bool

/-- `'already loaded' in stderr.lower()`. -/
def mentionsAlreadyLoaded (stderr : List Char) : Bool :=
  pyInStr ("already loaded".data) (pyLower stderr)

/-- The command line `launchctl load <plist>`. -/
def loadCmdFor (plist : List Char) : List Char := "launchctl load ".data ++ plist

/-- The command line `launchctl unload <plist>`. -/
def unloadCmdFor (plist : List Char) : List Char := "launchctl unload ".data ++ plist

/-- The shared load-and-record phase that follows a successful plist write,
parameterised by the plist path and the two success messages of the concrete
installer.  Returns the updated ledger and the trace of `launchctl`
invocations. -/
def launchAgentLoadPhase (env : LaunchctlEnv) (plist : List Char)
    (okMsg nextLoginMsg : String) (st : RunState) : RunState × List (List Char) :=
  let retry :=
    match env.firstLoad with
    | none => true
    | some err => mentionsAlreadyLoaded err
  if retry then
    if env.secondLoadOk then
      (addSuccess st okMsg, [loadCmdFor plist, unloadCmdFor plist, loadCmdFor plist])
    else
      (addSuccess st nextLoginMsg, [loadCmdFor plist, unloadCmdFor plist, loadCmdFor plist])
  else (addSuccess st okMsg, [loadCmdFor plist])

/-- `setup_kill_apple_media_tracking` after its plist write succeeded. -/
def setup_kill_apple_media_tracking (env : LaunchctlEnv) (st : RunState) :
    RunState × List (List Char) :=
  launchAgentLoadPhase env
    "Library/LaunchAgents/com.user.killapplemediatracking.plist".data
    "Apple media tracking killer script installed and started"
    "Apple media tracking killer script installed (will start on next login)" st

/-- `setup_download_recycler` after its plist write succeeded. -/
def setup_download_recycler (env : LaunchctlEnv) (st : RunState) :
    RunState × List (List Char) :=
  launchAgentLoadPhase env
    "Library/LaunchAgents/com.user.downloadrecycler.plist".data
    "Download Recycler installed and scheduled (runs daily at 9:00 AM)"
    "Download Recycler installed (will start on next login)" st

/-! ## The `main` entry point (src/setup_macos_dev.py:1110-1214)

Command-line arguments become `Args`; everything `main` consumes from the
outside world — the interactive menu's result, the confirmation line, the
probed platform, and each step's action — becomes `Env`.  The outcome records
the process exit code, the ghost trace of invoked step names, and the final
ledger.  `sys.exit(1)` and a fatal uncaught exception both yield exit code 1.
-/

/-- Parsed command-line flags. -/
structure Args where
  all : Bool
  list : Bool
  select : Option (List Char)
  noConfirm : Bool

/-- External inputs consumed by one run of `main`. -/
structure Env where
  menu : Option (List Nat)
  confirm : List Char
  system : String
  macosVersion : List Char
  actions : Nat → RunState → RunState × Option String

/-- Observable outcome of one process run. -/
structure MainOutcome where
  exitCode : Nat
  invoked : List String
  ledger : RunState
deriving DecidableEq

/-- `check_macos_compatibility` (src/setup_macos_dev.py:41-53): `False` off
Darwin, else compare `int(version.split('.')[0])` with 15.  `none` models the
uncaught `ValueError` when the major version does not parse. -/
def check_macos_compatibility (system : String) (ver : List Char) : Option Bool :=
  if system ≠ "Darwin" then some false
  else (parsePyInt (pyStrip ((splitOnChar '.' ver).headD []))).map
    (fun major => decide (15 ≤ major))

/-- The confirmation prompt's test `input(...).lower().strip() in ['y', 'yes']`. -/
def confirmAnswer (env : Env) : Bool :=
  let a := pyStrip (pyLower env.confirm)
  a = ['y'] ∨ a = ['y', 'e', 's']

/-- The selected step for registry index `i`, with its action drawn from the
environment. -/
def mkStep (env : Env) (i : Nat) : Step := ⟨stepName i, env.actions i⟩

/-- The selection phase of `main`: `--all`, then truthy `--select` (an empty
string is falsy and falls through to the interactive menu), then the
interactive surface.  Outer `none` models `sys.exit(1)`; inner `none` models a
cancelled menu. -/
def resolveSelection (args : Args) (env : Env) : Option (Option (List Nat)) :=
  if args.all then some (some (List.range numSteps))
  else
    match args.select with
    | some s =>
      if s ≠ [] then
        match resolveSelect s numSteps with
        | none => none
        | some l => some (some l)
      else some env.menu
    | none => some env.menu

/-- `main`: `--list` short-circuits; a failed selection exits 1; a cancelled
menu, an empty selection, and a declined confirmation exit 0; a failed
compatibility check exits 1 before any step runs; otherwise the selected
steps are executed and the exit code is 1 exactly when `failed_items` is
non-empty. -/
def pyMain (args : Args) (env : Env) : MainOutcome :=
  if args.list then ⟨0, [], ⟨[], []⟩⟩
  else
    match resolveSelection args env with
    | none => ⟨1, [], ⟨[], []⟩⟩
    | some none => ⟨0, [], ⟨[], []⟩⟩
    | some (some sel) =>
      if sel = [] then ⟨0, [], ⟨[], []⟩⟩
      else if ¬args.noConfirm ∧ ¬confirmAnswer env then ⟨0, [], ⟨[], []⟩⟩
      else if check_macos_compatibility env.system env.macosVersion = some true then
        let (fin, tr) := executeSteps (sel.map (mkStep env)) ⟨[], []⟩
        ⟨if fin.failures = [] then 0 else 1, tr, fin⟩
      else ⟨1, [], ⟨[], []⟩⟩

/-! ## Helper lemmas -/

/-- The bounds loop of the flag-driven surface succeeds on all-in-range input
and returns exactly the written indices. -/
lemma selectLoop_eq_map (n : Nat) :
    ∀ idxs : List Int, (∀ i ∈ idxs, 0 ≤ i ∧ i < (n : Int)) →
      selectLoop n idxs = some (idxs.map Int.toNat) := by
  intro idxs
  induction idxs with
  | nil => intro _; rfl
  | cons i rest ih =>
    intro h
    have hi := h i (List.mem_cons_self i rest)
    have hrest := ih (fun j hj => h j (List.mem_cons_of_mem i hj))
    simp [selectLoop, hi, hrest]

/-- The bounds loop of the flag-driven surface aborts when any written index
is out of range. -/
lemma selectLoop_eq_none (n : Nat) :
    ∀ idxs : List Int, ∀ i ∈ idxs, ¬(0 ≤ i ∧ i < (n : Int)) →
      selectLoop n idxs = none := by
  intro idxs
  induction idxs with
  | nil => intro i hi; exact absurd hi (List.not_mem_nil i)
  | cons j rest ih =>
    intro i hi hoob
    rcases List.mem_cons.mp hi with rfl | hmem
    · simp [selectLoop, hoob]
    · by_cases hj : 0 ≤ j ∧ j < (n : Int)
      · simp [selectLoop, hj, ih i hmem hoob]
      · simp [selectLoop, hj]

/-- The executor's invocation trace lists every selected step's name, in
order. -/
lemma executeSteps_trace : ∀ (steps : List Step) (st : RunState),
    (executeSteps steps st).2 = steps.map Step.name := by
  intro steps
  induction steps with
  | nil => intro st; rfl
  | cons s rest ih =>
    intro st
    simp [executeSteps, ih]

/-! ## Claims -/

/-- Claim C1, counterexample: for the valid in-bounds flag string `"2,1"` the
parsed 0-based indices are `[1, 0]`, the resolved Selection is `[1, 0]`
(written order, no reordering), yet the catalog-order-preserving
deduplication of the parsed indices is `[0, 1]`; and for `"1,1"` the resolved
Selection keeps the duplicate that deduplication would remove. -/
theorem c1_select_dedup_counterexample :
    parseSelect "2,1".data = some [1, 0] ∧
    resolveSelect "2,1".data numSteps = some [1, 0] ∧
    selectionSpecCatalogDedup [1, 0] numSteps = [0, 1] ∧
    resolveSelect "2,1".data numSteps ≠
      some (selectionSpecCatalogDedup [1, 0] numSteps) ∧
    resolveSelect "1,1".data numSteps = some [0, 0] ∧
    resolveSelect "1,1".data numSteps ≠
      some (selectionSpecCatalogDedup [0, 0] numSteps) := by
  refine ⟨by decide, by decide, by decide, by decide, by decide, by decide⟩

/-- Claim C1, amended: for every valid comma-separated `--select` string all
of whose parsed 1-based indices are within catalog bounds, the resolved
Selection is exactly the parsed indices in the order the operator wrote
them, duplicates retained — no deduplication and no reordering to catalog
order is performed. -/
theorem c1_select_resolution (s : List Char) (idxs : List Int)
    (hp : parseSelect s = some idxs)
    (hb : ∀ i ∈ idxs, 0 ≤ i ∧ i < (numSteps : Int)) :
    resolveSelect s numSteps = some (idxs.map Int.toNat) := by
  unfold resolveSelect
  rw [hp, Option.some_bind, selectLoop_eq_map numSteps idxs hb]

/-- Witness for C1's amended theorem at the concrete flag string `"2,1,1"`. -/
theorem c1_select_resolution_witness :
    parseSelect "2,1,1".data = some [1, 0, 0] ∧
    resolveSelect "2,1,1".data numSteps = some [1, 0, 0] :=
  ⟨by decide, c1_select_resolution "2,1,1".data [1, 0, 0] (by decide) (by decide)⟩

/-- Claim C2: the run executor invokes every selected step's action exactly
once, in order (the invocation trace equals the selected names); an escaped
exception becomes a failure entry tagged with the step's name and the
exception's description, appended to the failures ledger, after which the
walk continues with the remaining steps; and for the concrete sequence
`[ok, throws, ok]` all three actions run, the ledger gains two successes and
one failure. -/
theorem c2_executor_isolation :
    (∀ (steps : List Step) (st : RunState),
      (executeSteps steps st).2 = steps.map Step.name) ∧
    (∀ (s : Step) (rest : List Step) (st st1 : RunState) (msg : String),
      s.action st = (st1, some msg) →
      executeSteps (s :: rest) st =
        ((executeSteps rest
            (addFailure st1 (s.name ++ " (error: " ++ msg ++ ")"))).1,
         s.name ::
          (executeSteps rest
            (addFailure st1 (s.name ++ " (error: " ++ msg ++ ")"))).2)) ∧
    (∀ (n1 n2 n3 m1 m2 m3 : String) (st : RunState),
      executeSteps [okStep n1 m1, throwStep n2 m2, okStep n3 m3] st =
        ({ successes := st.successes ++ [m1, m3],
           failures := st.failures ++ [n2 ++ " (error: " ++ m2 ++ ")"] },
         [n1, n2, n3])) := by
  refine ⟨executeSteps_trace, ?_, ?_⟩
  · intro s rest st st1 msg h
    simp [executeSteps, h]
  · intro n1 n2 n3 m1 m2 m3 st
    simp [executeSteps, okStep, throwStep, addSuccess, addFailure]

/-- Witness for C2 at a concrete `[ok, throws, ok]` run from an empty
ledger. -/
theorem c2_executor_isolation_witness :
    executeSteps [okStep "a" "x", throwStep "b" "y", okStep "c" "z"] ⟨[], []⟩ =
      (⟨["x", "z"], ["b (error: y)"]⟩, ["a", "b", "c"]) :=
  c2_executor_isolation.2.2 "a" "b" "c" "x" "y" "z" ⟨[], []⟩

/-- Claim C3: once the plist is written, the background-job installer always
records exactly one success and never touches the failures ledger; whenever
the first load yields no result object or reports `already loaded`, it
unloads by path and loads again; and when both load attempts fail it still
records the success-with-guidance message rather than a failure. -/
theorem c3_launch_agent_soft_success (env : LaunchctlEnv) (plist : List Char)
    (okMsg nextLoginMsg : String) (st : RunState) :
    ((launchAgentLoadPhase env plist okMsg nextLoginMsg st).1.failures =
      st.failures) ∧
    ((launchAgentLoadPhase env plist okMsg nextLoginMsg st).1.successes =
        st.successes ++ [okMsg] ∨
     (launchAgentLoadPhase env plist okMsg nextLoginMsg st).1.successes =
        st.successes ++ [nextLoginMsg]) ∧
    ((env.firstLoad = none ∨
        (∃ e, env.firstLoad = some e ∧ mentionsAlreadyLoaded e = true)) →
      (launchAgentLoadPhase env plist okMsg nextLoginMsg st).2 =
        [loadCmdFor plist, unloadCmdFor plist, loadCmdFor plist]) ∧
    (env.firstLoad = none → env.secondLoadOk = false →
      (launchAgentLoadPhase env plist okMsg nextLoginMsg st).1.successes =
        st.successes ++ [nextLoginMsg]) := by
  unfold launchAgentLoadPhase
  rcases henv : env.firstLoad with _ | err
  · cases hok : env.secondLoadOk <;>
      simp [addSuccess]
  · cases hml : mentionsAlreadyLoaded err
    · simp [addSuccess, hml]
    · cases hok : env.secondLoadOk <;> simp [addSuccess, hml]

/-- Witness for C3: the media-tracking installer with a missing `launchctl`
and a failing retry still records success-with-guidance, no failure, after
issuing load, unload-by-path, load. -/
theorem c3_launch_agent_soft_success_witness :
    (setup_kill_apple_media_tracking ⟨none, false⟩ ⟨[], []⟩).1.failures = [] ∧
    (setup_kill_apple_media_tracking ⟨none, false⟩ ⟨[], []⟩).1.successes =
      ["Apple media tracking killer script installed (will start on next login)"] ∧
    (setup_kill_apple_media_tracking ⟨none, false⟩ ⟨[], []⟩).2 =
      [loadCmdFor "Library/LaunchAgents/com.user.killapplemediatracking.plist".data,
       unloadCmdFor "Library/LaunchAgents/com.user.killapplemediatracking.plist".data,
       loadCmdFor "Library/LaunchAgents/com.user.killapplemediatracking.plist".data] := by
  have h := c3_launch_agent_soft_success ⟨none, false⟩
    "Library/LaunchAgents/com.user.killapplemediatracking.plist".data
    "Apple media tracking killer script installed and started"
    "Apple media tracking killer script installed (will start on next login)"
    ⟨[], []⟩
  exact ⟨h.1, h.2.2.2 rfl rfl, h.2.2.1 (Or.inl rfl)⟩

/-- `pyInStr` decides the substring relation. -/
lemma pyInStr_iff (pat s : List Char) : pyInStr pat s = true ↔ pat <:+: s := by
  simp [pyInStr]

/-- The candidate line is a substring of the file produced by any call of
`add_to_shell_profile` with that line (present already, or just appended). -/
lemma line_infix_after_add (file : Option (List Char)) (line : List Char) :
    line <:+: ((add_to_shell_profile file line).1.getD []) := by
  unfold add_to_shell_profile
  by_cases h : pyInStr line (file.getD []) = true
  · simpa [h] using (pyInStr_iff line (file.getD [])).mp h
  · have hsplit : (file.getD []) ++ '\n' :: (line ++ ['\n']) =
        ((file.getD []) ++ ['\n']) ++ line ++ ['\n'] := by simp
    simp only [h]
    simp only [Bool.false_eq_true, if_false, Option.getD_some, hsplit]
    exact List.infix_append _ _ _

/-- A nonempty substring occurs at least once by `countOccur`'s count. -/
lemma countOccur_pos (pat : List Char) (hne : pat ≠ []) :
    ∀ u v : List Char, 1 ≤ countOccur pat (u ++ pat ++ v) := by
  intro u
  induction u with
  | nil =>
    intro v
    rcases pat with _ | ⟨c, cs⟩
    · exact absurd rfl hne
    · show 1 ≤ (if (c :: cs) <+: c :: (cs ++ v) then 1 else 0) +
          countOccur (c :: cs) (cs ++ v)
      rw [if_pos (show (c :: cs) <+: c :: (cs ++ v) from List.prefix_append (c :: cs) v)]
      exact Nat.le_add_right 1 _
  | cons a u' ih =>
    intro v
    show 1 ≤ (if pat <+: a :: (u' ++ pat ++ v) then 1 else 0) +
        countOccur pat (u' ++ pat ++ v)
    exact le_trans (ih v) (Nat.le_add_left _ _)

/-- Claim C4, counterexample: the presence test is substring containment on
the whole content, not membership among the file's lines (`"a"` is a
substring of `"ab"` but not one of its lines, yet the call reports
already-present and leaves the file alone); and an insertion appends a
leading newline as well (`"x"` plus line `"hi"` yields `"x\nhi\nx"`-content
`"x\nhi\n"`, not `"x"` + `"hi\n"`). -/
theorem c4_ensure_line_counterexample :
    add_to_shell_profile (some ['a', 'b']) ['a'] = (some ['a', 'b'], false) ∧
    ¬ (['a'] ∈ linesOf ['a', 'b']) ∧
    add_to_shell_profile (some ['x']) ['h', 'i'] =
      (some ['x', '\n', 'h', 'i', '\n'], true) ∧
    (['x', '\n', 'h', 'i', '\n'] : List Char) ≠ ['x'] ++ (['h', 'i'] ++ ['\n']) := by
  refine ⟨by decide, by decide, by decide, by decide⟩

/-- Claim C4, amended: `add_to_shell_profile` returns a boolean distinguishing
inserted from already-present, treats a missing file as empty, decides
presence by substring containment of the line in the whole content, and when
absent appends a leading newline, the line, and a trailing newline after the
byte-for-byte unchanged existing content; when present it leaves the file
untouched. -/
theorem c4_ensure_line_contract (file : Option (List Char)) (line : List Char) :
    ((add_to_shell_profile file line).2 = true ↔ ¬ line <:+: (file.getD [])) ∧
    (add_to_shell_profile file line).1 =
      (if line <:+: (file.getD []) then file
       else some ((file.getD []) ++ '\n' :: (line ++ ['\n']))) := by
  unfold add_to_shell_profile
  by_cases h : line <:+: (file.getD [])
  · have hb : pyInStr line (file.getD []) = true := (pyInStr_iff _ _).mpr h
    simp [hb, h]
  · have hb : pyInStr line (file.getD []) = false :=
      Bool.eq_false_iff.mpr (fun hb => h ((pyInStr_iff _ _).mp hb))
    simp [hb, h]

/-- Witness for C4's amended theorem: inserting `"y"` into content `"x"`. -/
theorem c4_ensure_line_contract_witness :
    (add_to_shell_profile (some ['x']) ['y']).2 = true ∧
    (add_to_shell_profile (some ['x']) ['y']).1 = some ['x', '\n', 'y', '\n'] := by
  have h := c4_ensure_line_contract (some ['x']) ['y']
  refine ⟨h.1.mpr (by decide), ?_⟩
  rw [h.2, if_neg (by decide)]
  rfl

/-- Claim C5, counterexample: with file content `"abc\nabc"` and line
`"abc"`, both calls are no-ops, and afterwards the line occurs twice — both
as a substring and among the file's lines — not exactly once. -/
theorem c5_idempotence_counterexample :
    countOccur ['a', 'b', 'c']
      (((add_to_shell_profile
          (add_to_shell_profile (some ['a', 'b', 'c', '\n', 'a', 'b', 'c'])
            ['a', 'b', 'c']).1 ['a', 'b', 'c']).1).getD []) = 2 ∧
    ((linesOf (((add_to_shell_profile
          (add_to_shell_profile (some ['a', 'b', 'c', '\n', 'a', 'b', 'c'])
            ['a', 'b', 'c']).1 ['a', 'b', 'c']).1).getD [])).filter
        (fun l => decide (l = ['a', 'b', 'c']))).length = 2 := by
  refine ⟨by decide, by decide⟩

/-- Claim C5, amended: for every file and every nonempty line, the second of
two successive `add_to_shell_profile` calls with the same line is a no-op —
it leaves the content, hence the line count, unchanged and reports
already-present — and afterwards the line occurs at least once as a
substring (but not necessarily exactly once). -/
theorem c5_idempotence (file : Option (List Char)) (line : List Char)
    (hne : line ≠ []) :
    (add_to_shell_profile (add_to_shell_profile file line).1 line).1 =
      (add_to_shell_profile file line).1 ∧
    (add_to_shell_profile (add_to_shell_profile file line).1 line).2 = false ∧
    (linesOf (((add_to_shell_profile (add_to_shell_profile file line).1 line).1).getD [])).length =
      (linesOf (((add_to_shell_profile file line).1).getD [])).length ∧
    1 ≤ countOccur line
        (((add_to_shell_profile (add_to_shell_profile file line).1 line).1).getD []) := by
  have hinf : line <:+: ((add_to_shell_profile file line).1.getD []) :=
    line_infix_after_add file line
  have hb : pyInStr line ((add_to_shell_profile file line).1.getD []) = true :=
    (pyInStr_iff _ _).mpr hinf
  have hsnd : add_to_shell_profile (add_to_shell_profile file line).1 line =
      ((add_to_shell_profile file line).1, false) := by
    show (if pyInStr line (((add_to_shell_profile file line).1).getD []) = true then
            ((add_to_shell_profile file line).1, false)
          else
            (some ((((add_to_shell_profile file line).1).getD []) ++
              '\n' :: (line ++ ['\n'])), true)) =
        ((add_to_shell_profile file line).1, false)
    rw [if_pos hb]
  refine ⟨by rw [hsnd], by rw [hsnd], by rw [hsnd], ?_⟩
  rw [hsnd]
  obtain ⟨u, v, huv⟩ := hinf
  rw [← huv]
  have := countOccur_pos line hne u v
  simpa using this

/-- Witness for C5's amended theorem: file `"x"`, line `"y"`. -/
theorem c5_idempotence_witness :
    (add_to_shell_profile (add_to_shell_profile (some ['x']) ['y']).1 ['y']).1 =
      (add_to_shell_profile (some ['x']) ['y']).1 ∧
    (add_to_shell_profile (add_to_shell_profile (some ['x']) ['y']).1 ['y']).2 = false ∧
    (linesOf (((add_to_shell_profile (add_to_shell_profile (some ['x']) ['y']).1 ['y']).1).getD [])).length =
      (linesOf (((add_to_shell_profile (some ['x']) ['y']).1).getD [])).length ∧
    1 ≤ countOccur ['y']
        (((add_to_shell_profile (add_to_shell_profile (some ['x']) ['y']).1 ['y']).1).getD []) :=
  c5_idempotence (some ['x']) ['y'] (by decide)

/-- The empty string never parses as a selection (so a non-empty `--select`
path is forced whenever parsing succeeded). -/
lemma parseSelect_nil : parseSelect ([] : List Char) = none := by decide

/-- Claim C6: whenever some parsed `--select` index is out of range (1-based
index below 1 or above the number of registered steps, i.e. 0-based below 0
or at/above `numSteps`), the process exits with status 1 and invokes no
step's action. -/
theorem c6_select_out_of_range_fatal (args : Args) (env : Env)
    (s : List Char) (idxs : List Int) (i : Int)
    (hl : args.list = false) (ha : args.all = false) (hs : args.select = some s)
    (hp : parseSelect s = some idxs) (hi : i ∈ idxs)
    (hoob : i < 0 ∨ (numSteps : Int) ≤ i) :
    pyMain args env = ⟨1, [], ⟨[], []⟩⟩ := by
  have hsne : s ≠ [] := by
    intro hnil
    rw [hnil, parseSelect_nil] at hp
    exact Option.noConfusion hp
  have hres : resolveSelect s numSteps = none := by
    unfold resolveSelect
    rw [hp, Option.some_bind]
    exact selectLoop_eq_none numSteps idxs i hi (by omega)
  have hsel : resolveSelection args env = none := by
    simp [resolveSelection, ha, hs, hsne, hres]
  simp [pyMain, hl, hsel]

/-- Witness for C6 at the concrete flag string `"99"` (only 15 steps
exist). -/
theorem c6_select_out_of_range_fatal_witness :
    pyMain ⟨false, false, some "99".data, true⟩
      ⟨none, [], "Darwin", "15".data, fun _ st => (st, none)⟩ =
      ⟨1, [], ⟨[], []⟩⟩ :=
  c6_select_out_of_range_fatal _ _ "99".data [98] 98 rfl rfl rfl
    (by decide) (by decide) (Or.inr (by decide))

/-- Claim C7: `--list` exits 0 without executing anything; a cancelled
selection exits 0 without executing anything; and for a run that reaches
execution, every selected step is invoked and the exit status is 1 exactly
when the failures ledger is non-empty at the end. -/
theorem c7_exit_status_iff_failures :
    (∀ (args : Args) (env : Env), args.list = true →
      pyMain args env = ⟨0, [], ⟨[], []⟩⟩) ∧
    (∀ (args : Args) (env : Env), args.list = false →
      resolveSelection args env = some none →
      pyMain args env = ⟨0, [], ⟨[], []⟩⟩) ∧
    (∀ (args : Args) (env : Env) (sel : List Nat), args.list = false →
      resolveSelection args env = some (some sel) → sel ≠ [] →
      (args.noConfirm = true ∨ confirmAnswer env = true) →
      check_macos_compatibility env.system env.macosVersion = some true →
      (pyMain args env).invoked = sel.map stepName ∧
      ((pyMain args env).exitCode = 1 ↔ (pyMain args env).ledger.failures ≠ [])) := by
  refine ⟨?_, ?_, ?_⟩
  · intro args env hl
    simp [pyMain, hl]
  · intro args env hl hres
    simp [pyMain, hl, hres]
  · intro args env sel hl hres hne hconf hcompat
    rcases hE : executeSteps (sel.map (mkStep env)) ⟨[], []⟩ with ⟨fin, tr⟩
    have htr : tr = sel.map stepName := by
      have := executeSteps_trace (sel.map (mkStep env)) ⟨[], []⟩
      rw [hE] at this
      simpa [List.map_map, mkStep, Function.comp] using this
    have hmain : pyMain args env =
        ⟨if fin.failures = [] then 0 else 1, tr, fin⟩ := by
      rcases hconf with h | h <;>
        simp [pyMain, hl, hres, hne, h, hcompat, hE]
    rw [hmain]
    refine ⟨htr, ?_⟩
    rcases hf : fin.failures with _ | ⟨x, xs⟩ <;> simp [hf]

/-- Witness for C7's executed-run clause: selecting step 1 with a succeeding
action invokes exactly `Homebrew` and exits 0 with an empty failures
ledger. -/
theorem c7_exit_status_iff_failures_witness :
    (pyMain ⟨false, false, some "1".data, true⟩
        ⟨none, [], "Darwin", "15".data, fun _ st => (addSuccess st "ok", none)⟩).invoked =
      ["Homebrew"] ∧
    ((pyMain ⟨false, false, some "1".data, true⟩
        ⟨none, [], "Darwin", "15".data, fun _ st => (addSuccess st "ok", none)⟩).exitCode = 1 ↔
      (pyMain ⟨false, false, some "1".data, true⟩
        ⟨none, [], "Darwin", "15".data, fun _ st => (addSuccess st "ok", none)⟩).ledger.failures ≠ []) := by
  have h := c7_exit_status_iff_failures.2.2
    ⟨false, false, some "1".data, true⟩
    ⟨none, [], "Darwin", "15".data, fun _ st => (addSuccess st "ok", none)⟩
    [0] rfl rfl (by decide) (Or.inl rfl) (by decide)
  exact ⟨h.1, h.2⟩

/-- Claim C8: whenever the probed platform is not Darwin, or its reported
major version parses below 15, any run that reaches the pre-flight check —
selection resolved non-empty and confirmation passed — exits with status 1
and invokes no step's action. -/
theorem c8_preflight_gate (args : Args) (env : Env) (sel : List Nat)
    (hl : args.list = false) (hres : resolveSelection args env = some (some sel))
    (hne : sel ≠ []) (hconf : args.noConfirm = true ∨ confirmAnswer env = true)
    (hbad : env.system ≠ "Darwin" ∨
      (∃ m : Int,
        parsePyInt (pyStrip ((splitOnChar '.' env.macosVersion).headD [])) = some m ∧
        m < 15)) :
    pyMain args env = ⟨1, [], ⟨[], []⟩⟩ := by
  have hcompat : ¬(check_macos_compatibility env.system env.macosVersion = some true) := by
    rcases hbad with h | ⟨m, hm, hlt⟩
    · simp [check_macos_compatibility, h]
    · by_cases hd : env.system = "Darwin"
      · rw [check_macos_compatibility, if_neg (by simp [hd]), hm]
        simp
        omega
      · simp [check_macos_compatibility, hd]
  rcases hconf with h | h <;>
    simp [pyMain, hl, hres, hne, h, hcompat]

/-- Witness for C8: a run on a non-Darwin platform with `--all` and
`--no-confirm` exits 1 before invoking anything. -/
theorem c8_preflight_gate_witness :
    pyMain ⟨true, false, none, true⟩
      ⟨none, [], "Linux", "15".data, fun _ st => (st, none)⟩ =
      ⟨1, [], ⟨[], []⟩⟩ :=
  c8_preflight_gate ⟨true, false, none, true⟩
    ⟨none, [], "Linux", "15".data, fun _ st => (st, none)⟩
    (List.range numSteps) rfl rfl (by decide) (Or.inl rfl)
    (Or.inl (by decide))

/-- Claim C10: when stdin is exhausted while the line-based surface prompts,
`display_simple_menu` returns the full selection of all registered steps,
identical to what typing `all` yields, and in particular neither a
cancellation nor an empty selection. -/
theorem c10_menu_eof_selects_all :
    display_simple_menu [] = MenuResult.selected (List.range numSteps) ∧
    display_simple_menu [] = display_simple_menu ["all".data] ∧
    display_simple_menu [] ≠ MenuResult.cancelled ∧
    display_simple_menu [] ≠ MenuResult.selected [] := by
  refine ⟨rfl, by decide, by decide, by decide⟩

/-! ## Lemmas for the equivalence of the two non-interactive surfaces -/

/-- `split` never returns the empty list of parts. -/
lemma splitOnChar_ne_nil (sep : Char) : ∀ s, splitOnChar sep s ≠ [] := by
  intro s
  induction s with
  | nil => simp [splitOnChar]
  | cons c rest ih =>
    simp only [splitOnChar]
    by_cases h : c = sep
    · simp [h]
    · rcases hps : splitOnChar sep rest with _ | ⟨p, ps'⟩
      · simp [h]
      · simp [h]

/-- Whitespace is never the comma separator. -/
lemma ws_ne_comma {c : Char} (h : isWsChar c = true) : c ≠ ',' := by
  intro hc
  subst hc
  simp [isWsChar] at h

/-- Stripping ignores a leading whitespace character. -/
lemma pyStrip_cons_ws {c : Char} (h : isWsChar c = true) (p : List Char) :
    pyStrip (c :: p) = pyStrip p := by
  simp [pyStrip, pyStripLeft, List.dropWhile_cons, h]

/-- Stripping ignores a trailing whitespace character. -/
lemma pyStrip_append_ws {w : Char} (h : isWsChar w = true) (p : List Char) :
    pyStrip (p ++ [w]) = pyStrip p := by
  unfold pyStrip pyStripLeft pyStripRight
  rw [List.dropWhile_append]
  by_cases he : (List.dropWhile isWsChar p).isEmpty
  · simp [he, List.dropWhile_cons, h, List.isEmpty_iff.mp he]
  · rw [if_neg he, List.reverse_append, List.reverse_singleton, List.singleton_append,
      List.dropWhile_cons, if_pos h]

/-- Dropping leading whitespace does not change the stripped parts of the
comma split. -/
lemma map_strip_split_stripLeft (s : List Char) :
    (splitOnChar ',' (pyStripLeft s)).map pyStrip =
      (splitOnChar ',' s).map pyStrip := by
  induction s with
  | nil => rfl
  | cons c rest ih =>
    by_cases h : isWsChar c
    · have hne : c ≠ ',' := ws_ne_comma h
      have hleft : pyStripLeft (c :: rest) = pyStripLeft rest := by
        simp [pyStripLeft, List.dropWhile_cons, h]
      rw [hleft, ih]
      rcases hps : splitOnChar ',' rest with _ | ⟨p, ps'⟩
      · exact absurd hps (splitOnChar_ne_nil ',' rest)
      · simp only [splitOnChar, if_neg hne, hps, List.map_cons]
        rw [pyStrip_cons_ws h]
    · have hleft : pyStripLeft (c :: rest) = c :: rest := by
        simp [pyStripLeft, List.dropWhile_cons, h]
      rw [hleft]

/-- Appending a non-separator character extends the last part of the split. -/
lemma split_append_single {x : Char} (hx : x ≠ ',') :
    ∀ s, splitOnChar ',' (s ++ [x]) = modLast (· ++ [x]) (splitOnChar ',' s) := by
  intro s
  induction s with
  | nil =>
    simp [splitOnChar, modLast, hx]
  | cons c rest ih =>
    rcases hps : splitOnChar ',' rest with _ | ⟨p, ps'⟩
    · exact absurd hps (splitOnChar_ne_nil ',' rest)
    · by_cases hc : c = ','
      · subst hc
        simp [splitOnChar, ih, hps, modLast]
      · rcases ps' with _ | ⟨q, qs⟩
        · simp [splitOnChar, hc, ih, hps, modLast]
        · simp [splitOnChar, hc, ih, hps, modLast]

/-- Extending the last part by trailing whitespace is invisible after
stripping each part. -/
lemma map_strip_modLast_ws {w : Char} (h : isWsChar w = true) :
    ∀ l : List (List Char), (modLast (· ++ [w]) l).map pyStrip = l.map pyStrip := by
  intro l
  induction l with
  | nil => rfl
  | cons p ps ih =>
    rcases ps with _ | ⟨q, qs⟩
    · simp [modLast, pyStrip_append_ws h]
    · simp only [modLast, List.map_cons]
      rw [show (modLast (· ++ [w]) (q :: qs)).map pyStrip =
            ((q :: qs).map pyStrip) from ih]
      simp

/-- Every string splits off a trailing all-whitespace run. -/
lemma stripRight_decomp (s : List Char) :
    s = pyStripRight s ++ (s.reverse.takeWhile isWsChar).reverse ∧
      ∀ c ∈ (s.reverse.takeWhile isWsChar).reverse, isWsChar c = true := by
  constructor
  · conv_lhs => rw [← List.reverse_reverse s,
      ← List.takeWhile_append_dropWhile (p := isWsChar) (l := s.reverse)]
    rw [List.reverse_append]
    rfl
  · intro c hc
    rw [List.mem_reverse] at hc
    exact List.mem_takeWhile_imp hc

/-- Appending any all-whitespace run does not change the stripped parts of
the comma split. -/
lemma map_strip_split_append_ws :
    ∀ (suffix : List Char), (∀ c ∈ suffix, isWsChar c = true) →
      ∀ t, (splitOnChar ',' (t ++ suffix)).map pyStrip =
        (splitOnChar ',' t).map pyStrip := by
  intro suffix
  induction suffix with
  | nil => intro _ t; simp
  | cons w ws ih =>
    intro hws t
    have hw : isWsChar w = true := hws w (List.mem_cons_self w ws)
    have hstep : t ++ w :: ws = (t ++ [w]) ++ ws := by simp
    rw [hstep, ih (fun c hc => hws c (List.mem_cons_of_mem w hc)) (t ++ [w]),
      split_append_single (ws_ne_comma hw) t, map_strip_modLast_ws hw]

/-- Dropping trailing whitespace does not change the stripped parts of the
comma split. -/
lemma map_strip_split_stripRight (t : List Char) :
    (splitOnChar ',' (pyStripRight t)).map pyStrip =
      (splitOnChar ',' t).map pyStrip := by
  obtain ⟨hdec, hws⟩ := stripRight_decomp t
  conv_rhs => rw [hdec]
  rw [map_strip_split_append_ws _ hws (pyStripRight t)]

/-- Stripping the whole string does not change the stripped parts of the
comma split: the flag-driven surface (which strips each part of the raw
string) and the line-based surface (which strips the whole line first, then
each part) see the same stripped parts. -/
lemma map_strip_split_strip (s : List Char) :
    (splitOnChar ',' (pyStrip s)).map pyStrip =
      (splitOnChar ',' s).map pyStrip := by
  rw [show pyStrip s = pyStripRight (pyStripLeft s) from rfl,
    map_strip_split_stripRight (pyStripLeft s), map_strip_split_stripLeft]

/-- The parsed index list depends only on the stripped parts. -/
lemma parseParts_congr :
    ∀ P Q : List (List Char), P.map pyStrip = Q.map pyStrip →
      parseParts P = parseParts Q := by
  intro P
  induction P with
  | nil =>
    intro Q h
    rcases Q with _ | ⟨q, qs⟩
    · rfl
    · exact absurd h (by simp)
  | cons p ps ih =>
    intro Q h
    rcases Q with _ | ⟨q, qs⟩
    · exact absurd h (by simp)
    · simp only [List.map_cons, List.cons.injEq] at h
      simp only [parseParts, h.1, ih qs h.2]

/-- A successful digit-run parse certifies a nonempty all-digit string. -/
lemma parseDigits_some {s : List Char} {k : Int} (h : parseDigits s = some k) :
    s ≠ [] ∧ s.all isDigitChar = true := by
  unfold parseDigits at h
  split at h
  · next hcond => exact hcond
  · exact Option.noConfusion h

/-- A successful `int()` parse certifies every character is a sign or a
digit. -/
lemma parsePyInt_some_chars {t : List Char} {k : Int} (h : parsePyInt t = some k) :
    ∀ c ∈ t, isSignChar c = true ∨ isDigitChar c = true := by
  rcases t with _ | ⟨a, rest⟩
  · intro c hc; exact absurd hc (List.not_mem_nil c)
  · intro c hc
    by_cases ha : a = '+'
    · subst ha
      rw [parsePyInt, if_pos rfl] at h
      have hd := (parseDigits_some h).2
      rcases List.mem_cons.mp hc with rfl | hcr
      · exact Or.inl (by simp [isSignChar])
      · exact Or.inr (List.all_eq_true.mp hd c hcr)
    · by_cases hb : a = '-'
      · subst hb
        rw [parsePyInt, if_neg (by decide), if_pos rfl] at h
        obtain ⟨k', hk', _⟩ := Option.map_eq_some'.mp h
        have hd := (parseDigits_some hk').2
        rcases List.mem_cons.mp hc with rfl | hcr
        · exact Or.inl (by simp [isSignChar])
        · exact Or.inr (List.all_eq_true.mp hd c hcr)
      · rw [parsePyInt, if_neg ha, if_neg hb] at h
        have hd := (parseDigits_some h).2
        exact Or.inr (List.all_eq_true.mp hd c hc)

/-- A successful parse of the comprehension certifies every part parses. -/
lemma parseParts_success_parts :
    ∀ (P : List (List Char)) (idxs : List Int), parseParts P = some idxs →
      ∀ p ∈ P, ∃ k, parsePyInt (pyStrip p) = some k := by
  intro P
  induction P with
  | nil => intro idxs _ p hp; exact absurd hp (List.not_mem_nil p)
  | cons q qs ih =>
    intro idxs h p hp
    rcases h1 : parsePyInt (pyStrip q) with _ | k
    · rw [parseParts, h1] at h; exact Option.noConfusion h
    · rcases h2 : parseParts qs with _ | rest
      · rw [parseParts, h1, h2] at h; exact Option.noConfusion h
      · rcases List.mem_cons.mp hp with rfl | hpr
        · exact ⟨k, h1⟩
        · exact ih rest h2 p hpr

/-- The comprehension yields one index per part. -/
lemma parseParts_some_length :
    ∀ (P : List (List Char)) (idxs : List Int), parseParts P = some idxs →
      idxs.length = P.length := by
  intro P
  induction P with
  | nil =>
    intro idxs h
    rw [parseParts] at h
    cases h
    rfl
  | cons q qs ih =>
    intro idxs h
    rcases h1 : parsePyInt (pyStrip q) with _ | k
    · rw [parseParts, h1] at h; exact Option.noConfusion h
    · rcases h2 : parseParts qs with _ | rest
      · rw [parseParts, h1, h2] at h; exact Option.noConfusion h
      · rw [parseParts, h1, h2] at h
        cases h
        simp [ih rest h2]

/-- Every character of a string is the separator or belongs to some part of
its split. -/
lemma mem_split_chars :
    ∀ (s : List Char) (c : Char), c ∈ s →
      c = ',' ∨ ∃ p ∈ splitOnChar ',' s, c ∈ p := by
  intro s
  induction s with
  | nil => intro c hc; exact absurd hc (List.not_mem_nil c)
  | cons a rest ih =>
    intro c hc
    by_cases ha : a = ','
    · rcases List.mem_cons.mp hc with rfl | hcr
      · exact Or.inl ha
      · rcases ih c hcr with h | ⟨p, hp, hcp⟩
        · exact Or.inl h
        · refine Or.inr ⟨p, ?_, hcp⟩
          simp only [splitOnChar, if_pos ha]
          exact List.mem_cons_of_mem _ hp
    · rcases hps : splitOnChar ',' rest with _ | ⟨p₀, ps'⟩
      · exact absurd hps (splitOnChar_ne_nil ',' rest)
      · have hsplit : splitOnChar ',' (a :: rest) = (a :: p₀) :: ps' := by
          simp [splitOnChar, ha, hps]
        rcases List.mem_cons.mp hc with rfl | hcr
        · exact Or.inr ⟨c :: p₀, by rw [hsplit]; exact List.mem_cons_self _ _,
            List.mem_cons_self _ _⟩
        · rcases ih c hcr with h | ⟨p, hp, hcp⟩
          · exact Or.inl h
          · rw [hps] at hp
            rcases List.mem_cons.mp hp with rfl | hpr
            · exact Or.inr ⟨a :: p, by rw [hsplit]; exact List.mem_cons_self _ _,
                List.mem_cons_of_mem a hcp⟩
            · exact Or.inr ⟨p, by rw [hsplit]; exact List.mem_cons_of_mem _ hpr, hcp⟩

/-- Every character of a part is whitespace or a character of the stripped
part. -/
lemma mem_part_chars (p : List Char) :
    ∀ c ∈ p, isWsChar c = true ∨ c ∈ pyStrip p := by
  intro c hc
  have hdecompL : p = p.takeWhile isWsChar ++ pyStripLeft p :=
    (List.takeWhile_append_dropWhile (p := isWsChar) (l := p)).symm
  obtain ⟨hdecR, hwsR⟩ := stripRight_decomp (pyStripLeft p)
  rcases List.mem_append.mp (hdecompL ▸ hc) with hin | hin
  · exact Or.inl (List.mem_takeWhile_imp hin)
  · rcases List.mem_append.mp (hdecR ▸ hin) with hin2 | hin2
    · exact Or.inr hin2
    · exact Or.inl (hwsR c hin2)

/-- A successfully parsed selection string contains only whitespace, signs,
digits, and commas. -/
lemma parseSelect_chars {s : List Char} {idxs : List Int}
    (h : parseSelect s = some idxs) :
    ∀ c ∈ s, isWsChar c = true ∨ isSignChar c = true ∨ isDigitChar c = true ∨ c = ',' := by
  intro c hc
  rcases mem_split_chars s c hc with rfl | ⟨p, hp, hcp⟩
  · exact Or.inr (Or.inr (Or.inr rfl))
  · obtain ⟨k, hk⟩ := parseParts_success_parts (splitOnChar ',' s) idxs h p hp
    rcases mem_part_chars p c hcp with hws | hcore
    · exact Or.inl hws
    · rcases parsePyInt_some_chars hk c hcore with hs | hd
      · exact Or.inr (Or.inl hs)
      · exact Or.inr (Or.inr (Or.inl hd))

/-- ASCII lowering fixes whitespace, signs, digits, and the comma. -/
lemma lowerChar_fix {c : Char}
    (h : isWsChar c = true ∨ isSignChar c = true ∨ isDigitChar c = true ∨ c = ',') :
    lowerChar c = c := by
  rcases h with h | h | h | h
  · rcases Bool.or_eq_true_iff.mp h with h' | h'
    · rcases Bool.or_eq_true_iff.mp h' with h'' | h''
      · rcases Bool.or_eq_true_iff.mp h'' with h3 | h3
        · rcases Bool.or_eq_true_iff.mp h3 with h4 | h4
          · rcases Bool.or_eq_true_iff.mp h4 with h5 | h5
            · rw [show c = ' ' from by simpa using h5]; decide
            · rw [show c = '\t' from by simpa using h5]; decide
          · rw [show c = '\n' from by simpa using h4]; decide
        · rw [show c = '\r' from by simpa using h3]; decide
      · rw [show c = '\x0b' from by simpa using h'']; decide
    · rw [show c = '\x0c' from by simpa using h']; decide
  · rcases Bool.or_eq_true_iff.mp h with h' | h'
    · rw [show c = '+' from by simpa using h']; decide
    · rw [show c = '-' from by simpa using h']; decide
  · have hb : 48 ≤ c.toNat ∧ c.toNat ≤ 57 := of_decide_eq_true h
    rw [lowerChar, if_neg (by omega)]
  · subst h; decide

/-- Character-wise lowering fixes a string all of whose characters it
fixes. -/
lemma pyLower_fix {l : List Char} (h : ∀ c ∈ l, lowerChar c = c) :
    pyLower l = l := by
  induction l with
  | nil => rfl
  | cons c rest ih =>
    rw [pyLower, List.map_cons, h c (List.mem_cons_self c rest),
      show rest.map lowerChar = rest from
        ih (fun d hd => h d (List.mem_cons_of_mem c hd))]

/-- Characters of the stripped string come from the original string. -/
lemma mem_of_mem_pyStrip {s : List Char} {c : Char} (hc : c ∈ pyStrip s) : c ∈ s := by
  unfold pyStrip pyStripRight pyStripLeft at hc
  rw [List.mem_reverse] at hc
  have h1 := (List.dropWhile_sublist (l := (List.dropWhile isWsChar s).reverse)
    (p := isWsChar)).subset hc
  rw [List.mem_reverse] at h1
  exact (List.dropWhile_sublist (l := s) (p := isWsChar)).subset h1

/-- The menu's bounds loop accepts an all-in-range index list unchanged,
reporting nothing invalid. -/
lemma menuBoundsLoop_eq (n : Nat) :
    ∀ idxs : List Int, (∀ i ∈ idxs, 0 ≤ i ∧ i < (n : Int)) →
      menuBoundsLoop n idxs = (idxs.map Int.toNat, []) := by
  intro idxs
  induction idxs with
  | nil => intro _; rfl
  | cons i rest ih =>
    intro h
    have hi := h i (List.mem_cons_self i rest)
    have hrest := ih (fun j hj => h j (List.mem_cons_of_mem i hj))
    simp [menuBoundsLoop, hrest, hi]

/-- Claim C9: for every valid in-bounds comma-separated index string, the
line-based surface (given that string as its input line) resolves exactly
the Selection that the flag-driven surface resolves for `--select` of the
same string: the same steps, in the same order. -/
theorem c9_surface_equivalence (s : List Char) (idxs : List Int)
    (hp : parseSelect s = some idxs)
    (hb : ∀ i ∈ idxs, 0 ≤ i ∧ i < (numSteps : Int)) :
    display_simple_menu [s] = MenuResult.selected (idxs.map Int.toNat) ∧
    resolveSelect s numSteps = some (idxs.map Int.toNat) := by
  have hflag : resolveSelect s numSteps = some (idxs.map Int.toNat) := by
    unfold resolveSelect
    rw [hp, Option.some_bind, selectLoop_eq_map numSteps idxs hb]
  refine ⟨?_, hflag⟩
  have hchars := parseSelect_chars hp
  have hlow : pyLower (pyStrip s) = pyStrip s :=
    pyLower_fix (fun c hc => lowerChar_fix (hchars c (mem_of_mem_pyStrip hc)))
  have hsel' : parseSelect (pyStrip s) = some idxs := by
    unfold parseSelect at hp ⊢
    rw [parseParts_congr _ _ (map_strip_split_strip s)]
    exact hp
  have hsel'' : parseParts (splitOnChar ',' (pyStrip s)) = some idxs := hsel'
  have hparts : ∀ x ∈ splitOnChar ',' (pyStrip s), pyStrip x ≠ [] := by
    intro x hx hnil
    obtain ⟨k, hk⟩ := parseParts_success_parts _ idxs hsel'' x hx
    rw [hnil] at hk
    simp [parsePyInt] at hk
  have hfilter : (splitOnChar ',' (pyStrip s)).filter
      (fun x => decide (pyStrip x ≠ [])) = splitOnChar ',' (pyStrip s) :=
    List.filter_eq_self.mpr (fun a ha => decide_eq_true (hparts a ha))
  have hlit : ∀ t : List Char, parseSelect t = none → pyStrip s ≠ t := by
    intro t ht h
    rw [h, ht] at hsel'
    exact Option.noConfusion hsel'
  have hq : pyStrip s ≠ ['q'] := hlit ['q'] (by decide)
  have hall : pyStrip s ≠ ['a', 'l', 'l'] := hlit ['a', 'l', 'l'] (by decide)
  have hnone : pyStrip s ≠ ['n', 'o', 'n', 'e'] := hlit ['n', 'o', 'n', 'e'] (by decide)
  have hnil : pyStrip s ≠ [] := hlit [] (by decide)
  have hidne : idxs ≠ [] := by
    intro h
    have hlen := parseParts_some_length _ _ hp
    rcases hsp : splitOnChar ',' s with _ | ⟨p, ps⟩
    · exact absurd hsp (splitOnChar_ne_nil ',' s)
    · rw [hsp, h] at hlen
      simp at hlen
  have hmb := menuBoundsLoop_eq numSteps idxs hb
  simp only [display_simple_menu, hlow, hfilter, hsel'', hmb, if_neg hq,
    if_neg (show ¬(pyStrip s = ['a', 'l', 'l'] ∨ pyStrip s = []) from
      fun h => h.elim hall hnil),
    if_neg hnone]
  simp [hidne]

/-- Witness for C9 at the spec's own example, `"1,3"` against the 15-step
catalog (0-based Selection `[0, 2]`). -/
theorem c9_surface_equivalence_witness :
    display_simple_menu ["1,3".data] = MenuResult.selected [0, 2] ∧
    resolveSelect "1,3".data numSteps = some [0, 2] :=
  c9_surface_equivalence "1,3".data [0, 2] (by decide) (by decide)

end SetupMacosDev
